import Mathlib

/-!
# Vanity import server (`main.go`): embedding and verified properties

A shallow embedding of `makeHandler`, `index`, `withCacheControl` and `parse`
from `main.go`, followed by theorems about metadata resolution, the order of
the route table, route selection, the index listing and the `Cache-Control`
header.

Conventions of the embedding:

* A Go `string` is a sequence of bytes (`GoString`).  `len` is `List.length`
  and `<` on strings is byte-wise lexicographic comparison (`strLess`).
* A Go `map[string]T` is an association list with pairwise distinct keys; the
  order of the list stands for the (unspecified) iteration order of the map.
* `error` results are `Except GoString _`, the string being the message.
* The libraries `sort`, `gorilla/mux`, `html/template` and `yaml` are not part
  of the program.  `sort.Slice`/`sort.Strings` are modelled by a sorting
  function (see `sortSlice`), the router by first-match over the routes in
  registration order, a template execution by the data handed to it, and
  `parse` starts from the decoded configuration.
-/

namespace Vanity

/-! ## Strings -/

/-- A Go string: a finite sequence of bytes. -/
abbrev GoString := List UInt8

/-- The bytes of an ASCII literal (every literal of `main.go` is ASCII, so each
character is one byte). -/
def ascii (s : String) : GoString := s.toList.map (fun c => UInt8.ofNat c.toNat)

/-- The string "/". -/
def slash : GoString := ascii "/"

/-- Go `strings.HasPrefix(s, pre)`. -/
def hasPrefix (s pre : GoString) : Bool := pre.isPrefixOf s

/-- Go `strings.HasSuffix(s, suf)`. -/
def hasSuffix (s suf : GoString) : Bool := suf.isSuffixOf s

/-- Go `strings.TrimSuffix(s, suf)`: `s[:len(s)-len(suf)]` when `s` ends in
`suf`, and `s` otherwise. -/
def trimSuffix (s suf : GoString) : GoString :=
  if hasSuffix s suf then s.take (s.length - suf.length) else s

/-- Go `strings.TrimPrefix(s, pre)`: `s[len(pre):]` when `s` starts with
`pre`, and `s` otherwise. -/
def trimPrefix (s pre : GoString) : GoString :=
  if hasPrefix s pre then s.drop pre.length else s

/-- Go `a < b` on strings: byte-wise lexicographic comparison, a proper prefix
being smaller. -/
def strLess : GoString → GoString → Bool
  | [], [] => false
  | [], _ :: _ => true
  | _ :: _, [] => false
  | a :: as, b :: bs =>
    if a.toNat < b.toNat then true
    else if b.toNat < a.toNat then false
    else strLess as bs

/-- Decimal digits of a natural number, as bytes. -/
def natDigits (n : Nat) : GoString :=
  (Nat.toDigits 10 n).map (fun c => UInt8.ofNat c.toNat)

/-- The verb `%d` of `fmt.Sprintf` applied to an `int`. -/
def fmtInt (n : Int) : GoString :=
  if n < 0 then ascii "-" ++ natDigits n.natAbs else natDigits n.natAbs

/-! ## Sorting (`sort.Slice`, `sort.Strings`) -/

/-- Insert `x` into a list sorted under `less`, before the first element that
`x` is less than. -/
def insertSorted {α : Type} (less : α → α → Bool) (x : α) : List α → List α
  | [] => [x]
  | y :: ys => if less x y then x :: y :: ys else y :: insertSorted less x ys

/-- Go `sort.Slice(xs, less)`.  The library promises a permutation of the
slice that is sorted under `less` (and no stability); it is modelled by
insertion.  For the comparators of this program the promise determines the
result (`sorted_perm_unique` below), so the choice of algorithm is not
observable. -/
def sortSlice {α : Type} (less : α → α → Bool) : List α → List α
  | [] => []
  | x :: xs => insertSorted less x (sortSlice less xs)

/-- Go `sort.Strings(xs)`: `sort.Slice` under `<` on strings. -/
def sortStrings (xs : List GoString) : List GoString := sortSlice strLess xs

/-! ## Responses and templates -/

/-- The anonymous struct `makeHandler` hands to `vanityTemplate.Execute`. -/
structure VanityData where
  Import : GoString
  Path : GoString
  Repo : GoString
  Display : GoString
  VCS : GoString
deriving DecidableEq, Repr

/-- The anonymous struct `index` hands to `indexTemplate.Execute`. -/
structure IndexData where
  Host : GoString
  Handlers : List GoString
deriving DecidableEq, Repr

/-- What has been written to the response body: the template executed and its
data (the HTML text itself, with the escaping done by `html/template`, is not
modelled). -/
inductive Body
  | empty
  | vanityPage (d : VanityData)
  | indexPage (d : IndexData)
  | notFound
deriving DecidableEq, Repr

/-- The `content` attribute of the `go-import` meta tag of `vanityTemplate`:
`{{.Import}} {{.VCS}} {{.Repo}}`. -/
def goImportContent (d : VanityData) : GoString :=
  d.Import ++ ascii " " ++ d.VCS ++ ascii " " ++ d.Repo

/-- The `content` attribute of the `go-source` meta tag of `vanityTemplate`:
`{{.Import}} {{.Display}}`. -/
def goSourceContent (d : VanityData) : GoString :=
  d.Import ++ ascii " " ++ d.Display

/-- The state of an `http.ResponseWriter`: header map, status and body. -/
structure ResponseWriter where
  header : List (GoString × GoString)
  status : Option Nat
  body : Body
deriving DecidableEq, Repr

/-- A fresh response writer. -/
def ResponseWriter.new : ResponseWriter := ⟨[], none, Body.empty⟩

/-- The call `w.Header().Set(k, v)`: the value of `k` becomes `v`. -/
def ResponseWriter.setHeader (w : ResponseWriter) (k v : GoString) : ResponseWriter :=
  { w with header := (k, v) :: w.header.filter (fun kv => kv.1 != k) }

/-- The call `w.Header().Get(k)`. -/
def ResponseWriter.getHeader (w : ResponseWriter) (k : GoString) : Option GoString :=
  w.header.lookup k

/-! ## Handlers -/

/-- The closures the program returns as `http.HandlerFunc`, by the variables
they capture: the one of `makeHandler` and the one of `index`. -/
inductive Handler
  | vanity (host repo display vcs : GoString)
  | index (host : GoString) (handlers : List GoString)
deriving DecidableEq, Repr

/-- The body of the two closures, run on a request with path `reqPath`. -/
def Handler.serveHTTP (h : Handler) (w : ResponseWriter) (reqPath : GoString) :
    ResponseWriter :=
  match h with
  | Handler.vanity host repo display vcs =>
    let w1 := w.setHeader (ascii "Content-Type") (ascii "text/html")
    { w1 with
      status := some 200
      body := Body.vanityPage
        { Import := host
          Path := trimPrefix reqPath slash
          Repo := repo
          Display := display
          VCS := vcs } }
  | Handler.index host handlers =>
    let w1 := w.setHeader (ascii "Content-Type") (ascii "text/html")
    { w1 with
      status := some 200
      body := Body.indexPage { Host := host, Handlers := handlers } }

/-- First `switch` of `makeHandler`: the display string after inference. -/
def resolveDisplay (repo display : GoString) : GoString :=
  if display ≠ [] then display
  else if hasPrefix repo (ascii "https://github.com/") then
    repo ++ ascii " " ++ repo ++ ascii "/tree/master\x7b/dir\x7d " ++ repo ++
      ascii "/blob/master\x7b/dir\x7d/\x7bfile\x7d#L\x7bline\x7d"
  else if hasPrefix repo (ascii "https://bitbucket.org") then
    repo ++ ascii " " ++ repo ++ ascii "/src/default\x7b/dir\x7d " ++ repo ++
      ascii "/src/default\x7b/dir\x7d/\x7bfile\x7d#\x7bfile\x7d-\x7bline\x7d"
  else display

/-- Second `switch` of `makeHandler`: the VCS string after validation and
inference, or the error. -/
def resolveVCS (repo vcs : GoString) : Except GoString GoString :=
  if vcs ≠ [] then
    if vcs ≠ ascii "bzr" ∧ vcs ≠ ascii "git" ∧ vcs ≠ ascii "hg" ∧ vcs ≠ ascii "svn" then
      Except.error (ascii "configuration for " ++ repo ++ ascii ": unknown VCS " ++ vcs)
    else Except.ok vcs
  else if hasPrefix repo (ascii "https://github.com/") then Except.ok (ascii "git")
  else if hasPrefix repo (ascii "https://bitbucket.org/") then Except.ok (ascii "git")
  else Except.error (ascii "cannot infer VCS from " ++ repo)

/-- Go `makeHandler(host, repo, display, vcs)`. -/
def makeHandler (host repo display vcs : GoString) : Except GoString Handler :=
  let display1 := resolveDisplay repo display
  match resolveVCS repo vcs with
  | Except.error e => Except.error e
  | Except.ok vcs1 => Except.ok (Handler.vanity host repo display1 vcs1)

/-- The slice `handlers` that `index` builds and sorts. -/
def indexHandlers (host : GoString) (paths : List GoString) : List GoString :=
  sortStrings (paths.map (fun path => trimSuffix (host ++ path) slash))

/-- Go `index(host, paths)`. -/
def index (host : GoString) (paths : List GoString) : Handler :=
  Handler.index host (indexHandlers host paths)

/-! ## Router -/

/-- A route of the router.  `isPrefixRoute` tells `router.PathPrefix(tpl)` from
`router.Handle(tpl, h)`; `owner` records which configured path the route was
registered for (`none` for the index route) and has no effect on dispatch. -/
structure Route where
  isPrefixRoute : Bool
  tpl : GoString
  handler : Handler
  owner : Option GoString
deriving DecidableEq, Repr

/-- Does the route accept the request path: equality for `Handle`, prefix for
`PathPrefix`. -/
def Route.accepts (rt : Route) (reqPath : GoString) : Bool :=
  if rt.isPrefixRoute then hasPrefix reqPath rt.tpl else reqPath == rt.tpl

/-- The route the router selects: the first one, in registration order, that
accepts the request path. -/
def selectRoute (routes : List Route) (reqPath : GoString) : Option Route :=
  routes.find? (fun rt => rt.accepts reqPath)

/-- The router as an `http.Handler`: run the selected handler, or answer 404
when no route accepts the path. -/
def routerServeHTTP (routes : List Route) (w : ResponseWriter) (reqPath : GoString) :
    ResponseWriter :=
  match selectRoute routes reqPath with
  | some rt => rt.handler.serveHTTP w reqPath
  | none => { w with status := some 404, body := Body.notFound }

/-! ## Configuration and `parse` -/

/-- The value type of `config.Paths`. -/
structure Entry where
  Repo : GoString
  Display : GoString
  VCS : GoString
deriving DecidableEq, Repr

/-- The decoded `config` of `parse`.  `MaxAge` is the `*int` (`none` for
`nil`); `Paths` is the map, in some iteration order. -/
structure Config where
  Host : GoString
  MaxAge : Option Int
  Paths : List (GoString × Entry)
deriving Repr

/-- The map index expression `config.Paths[path]`: the zero value when the key
is absent. -/
def Config.entry (cfg : Config) (path : GoString) : Entry :=
  (cfg.Paths.lookup path).getD ⟨[], [], []⟩

/-- The keys of `config.Paths`, in iteration order. -/
def Config.keys (cfg : Config) : List GoString := cfg.Paths.map Prod.fst

/-- The comparator handed to `sort.Slice` in `parse`. -/
def pathLess (a b : GoString) : Bool :=
  if a.length = b.length then strLess a b else decide (a.length > b.length)

/-- The slice `paths` of `parse` after `sort.Slice`. -/
def sortedPaths (cfg : Config) : List GoString := sortSlice pathLess cfg.keys

/-- The routes one iteration of the binding loop registers for `path`, given
the handler made for it. -/
def routesFor (path : GoString) (h : Handler) : List Route :=
  let trimmed := trimSuffix path slash
  (if trimmed.length > 0 then [Route.mk false trimmed h (some path)] else []) ++
    [Route.mk true (trimmed ++ slash) h (some path)]

/-- The loop `for _, path := range paths` of `parse`: the routes registered, in
order, or the first error of `makeHandler`. -/
def bindPaths (cfg : Config) : List GoString → Except GoString (List Route)
  | [] => Except.ok []
  | path :: rest =>
    match makeHandler cfg.Host (cfg.entry path).Repo (cfg.entry path).Display
        (cfg.entry path).VCS with
    | Except.error e => Except.error e
    | Except.ok h =>
      match bindPaths cfg rest with
      | Except.error e => Except.error e
      | Except.ok routes => Except.ok (routesFor path h ++ routes)

/-- What `parse` returns: the router wrapped by `withCacheControl`, that is the
header value computed once and the routes. -/
structure Server where
  cacheControl : GoString
  routes : List Route
deriving DecidableEq, Repr

/-- Go `withCacheControl(h, maxAge)` for `h` the router. -/
def withCacheControl (routes : List Route) (maxAge : Int) : Server :=
  { cacheControl := ascii "public, max-age=" ++ fmtInt maxAge, routes := routes }

/-- The closure returned by `withCacheControl`: set the header, then serve. -/
def Server.serveHTTP (s : Server) (w : ResponseWriter) (reqPath : GoString) :
    ResponseWriter :=
  routerServeHTTP s.routes (w.setHeader (ascii "Cache-Control") s.cacheControl) reqPath

/-- The value `maxAge` that `parse` passes to `withCacheControl`. -/
def resolveMaxAge (cfg : Config) : Int :=
  match cfg.MaxAge with
  | some n => if n ≥ 0 then n else 86400
  | none => 86400

/-- Go `parse`, from the decoded configuration on. -/
def parse (cfg : Config) : Except GoString Server :=
  let paths := sortedPaths cfg
  match bindPaths cfg paths with
  | Except.error e => Except.error e
  | Except.ok routes =>
    let routes1 :=
      if (cfg.Paths.lookup slash).isSome then routes
      else routes ++ [Route.mk false slash (index cfg.Host paths) none]
    Except.ok (withCacheControl routes1 (resolveMaxAge cfg))

/-- The keys of a map are pairwise distinct. -/
def Config.WellFormed (cfg : Config) : Prop := cfg.keys.Nodup

/-- A configured path `key` matches a request path when one of the routes
registered for it accepts the path. -/
def keyMatches (key reqPath : GoString) : Bool :=
  let trimmed := trimSuffix key slash
  (decide (trimmed.length > 0) && reqPath == trimmed) || hasPrefix reqPath (trimmed ++ slash)

/-! ## Example configurations -/

/-- Three nested paths "/a", "/a/b/c" and "/a/b", each with its own GitHub
repository. -/
def overlapConfig : Config :=
  { Host := ascii "example.org"
    MaxAge := none
    Paths :=
      [(ascii "/a", ⟨ascii "https://github.com/org/a", [], []⟩),
        (ascii "/a/b/c", ⟨ascii "https://github.com/org/abc", [], []⟩),
        (ascii "/a/b", ⟨ascii "https://github.com/org/ab", [], []⟩)] }

/-- A single path whose key is the empty string. -/
def emptyKeyConfig : Config :=
  { Host := ascii "example.org"
    MaxAge := none
    Paths := [([], ⟨ascii "https://github.com/org/root", [], []⟩)] }

/-- Two paths "/pkg" and "/tools/", and no path "/". -/
def plainConfig : Config :=
  { Host := ascii "example.org"
    MaxAge := some 3600
    Paths :=
      [(ascii "/pkg", ⟨ascii "https://github.com/org/pkg", [], []⟩),
        (ascii "/tools/", ⟨ascii "https://example.com/hg/tools", [], ascii "hg"⟩)] }

/-! ## Lemmas on strings and on `makeHandler` -/

theorem hasPrefix_iff (s pre : GoString) : hasPrefix s pre = true ↔ pre <+: s := by
  unfold hasPrefix; exact List.isPrefixOf_iff_prefix

theorem hasSuffix_iff (s suf : GoString) : hasSuffix s suf = true ↔ suf <:+ s := by
  unfold hasSuffix; exact List.isSuffixOf_iff_suffix

theorem resolveVCS_ok_iff (repo vcs v : GoString) :
    resolveVCS repo vcs = Except.ok v ↔
      (vcs ≠ [] ∧ v = vcs ∧ (vcs = ascii "bzr" ∨ vcs = ascii "git" ∨ vcs = ascii "hg" ∨ vcs = ascii "svn")) ∨
      (vcs = [] ∧ v = ascii "git" ∧
        (hasPrefix repo (ascii "https://github.com/") = true ∨
          hasPrefix repo (ascii "https://bitbucket.org/") = true)) := by
  unfold resolveVCS
  split_ifs with hv hk hg hb
  · constructor
    · intro h; cases h
    · rintro (⟨_, _, h⟩ | ⟨h, _⟩)
      · rcases h with h | h | h | h
        · exact absurd h hk.1
        · exact absurd h hk.2.1
        · exact absurd h hk.2.2.1
        · exact absurd h hk.2.2.2
      · exact absurd h hv
  · constructor
    · intro h
      injection h with h
      refine Or.inl ⟨hv, h.symm, ?_⟩
      by_contra hc
      simp only [not_or] at hc
      exact hk ⟨hc.1, hc.2.1, hc.2.2.1, hc.2.2.2⟩
    · rintro (⟨_, h, _⟩ | ⟨h, _⟩)
      · rw [h]
      · exact absurd h hv
  · have hv2 : vcs = [] := not_not.mp hv
    constructor
    · intro h
      injection h with h
      exact Or.inr ⟨hv2, h.symm, Or.inl hg⟩
    · rintro (⟨h, _⟩ | ⟨_, h, _⟩)
      · exact absurd hv2 h
      · rw [h]
  · have hv2 : vcs = [] := not_not.mp hv
    constructor
    · intro h
      injection h with h
      exact Or.inr ⟨hv2, h.symm, Or.inr hb⟩
    · rintro (⟨h, _⟩ | ⟨_, h, _⟩)
      · exact absurd hv2 h
      · rw [h]
  · have hv2 : vcs = [] := not_not.mp hv
    constructor
    · intro h; cases h
    · rintro (⟨h, _⟩ | ⟨_, _, h⟩)
      · exact absurd hv2 h
      · rcases h with h | h
        · exact absurd h hg
        · exact absurd h hb

theorem resolveVCS_error_iff (repo vcs e : GoString) :
    resolveVCS repo vcs = Except.error e ↔
      (vcs ≠ [] ∧ (vcs ≠ ascii "bzr" ∧ vcs ≠ ascii "git" ∧ vcs ≠ ascii "hg" ∧ vcs ≠ ascii "svn") ∧
        e = ascii "configuration for " ++ repo ++ ascii ": unknown VCS " ++ vcs) ∨
      (vcs = [] ∧ hasPrefix repo (ascii "https://github.com/") = false ∧
        hasPrefix repo (ascii "https://bitbucket.org/") = false ∧
        e = ascii "cannot infer VCS from " ++ repo) := by
  unfold resolveVCS
  split_ifs with hv hk hg hb
  · constructor
    · intro h
      injection h with h
      exact Or.inl ⟨hv, hk, h.symm⟩
    · rintro (⟨_, _, h⟩ | ⟨h, _⟩)
      · rw [h]
      · exact absurd h hv
  · constructor
    · intro h; cases h
    · rintro (⟨_, h, _⟩ | ⟨h, _⟩)
      · exact absurd h hk
      · exact absurd h hv
  · have hv2 : vcs = [] := not_not.mp hv
    constructor
    · intro h; cases h
    · rintro (⟨h, _⟩ | ⟨_, h, _⟩)
      · exact absurd hv2 h
      · rw [hg] at h; cases h
  · have hv2 : vcs = [] := not_not.mp hv
    constructor
    · intro h; cases h
    · rintro (⟨h, _⟩ | ⟨_, _, h, _⟩)
      · exact absurd hv2 h
      · rw [hb] at h; cases h
  · have hv2 : vcs = [] := not_not.mp hv
    constructor
    · intro h
      injection h with h
      exact Or.inr ⟨hv2, Bool.eq_false_iff.mpr hg, Bool.eq_false_iff.mpr hb, h.symm⟩
    · rintro (⟨h, _⟩ | ⟨_, _, _, h⟩)
      · exact absurd hv2 h
      · rw [h]

theorem makeHandler_ok_iff (host repo display vcs : GoString) (h : Handler) :
    makeHandler host repo display vcs = Except.ok h ↔
      ∃ v, resolveVCS repo vcs = Except.ok v ∧
        h = Handler.vanity host repo (resolveDisplay repo display) v := by
  unfold makeHandler
  cases hr : resolveVCS repo vcs with
  | error e => simp
  | ok v => simp [eq_comm]

theorem makeHandler_error_iff (host repo display vcs e : GoString) :
    makeHandler host repo display vcs = Except.error e ↔
      resolveVCS repo vcs = Except.error e := by
  unfold makeHandler
  cases hr : resolveVCS repo vcs with
  | error e => simp
  | ok v => simp

/-! ## Metadata resolution (`makeHandler`) -/

/-- C3: `makeHandler` returns an error exactly when `vcs` is non-empty and not
one of "bzr", "git", "hg", "svn", or `vcs` is empty and `repo` starts with
neither "https://github.com/" nor "https://bitbucket.org/"; the message of the
first failure contains "unknown VCS" and the repository URL, the message of the
second contains "cannot infer VCS" and the repository URL; and when an empty
`vcs` resolves, the handler renders "git". -/
theorem makeHandler_fails_iff_vcs_unresolvable (host repo display vcs : GoString) :
    ((∃ e, makeHandler host repo display vcs = Except.error e) ↔
      ((vcs ≠ [] ∧ vcs ≠ ascii "bzr" ∧ vcs ≠ ascii "git" ∧ vcs ≠ ascii "hg" ∧
          vcs ≠ ascii "svn") ∨
        (vcs = [] ∧ hasPrefix repo (ascii "https://github.com/") = false ∧
          hasPrefix repo (ascii "https://bitbucket.org/") = false))) ∧
    (∀ e, makeHandler host repo display vcs = Except.error e →
      (vcs ≠ [] → ascii "unknown VCS" <:+: e ∧ repo <:+: e) ∧
      (vcs = [] → ascii "cannot infer VCS" <:+: e ∧ repo <:+: e)) ∧
    (∀ h, makeHandler host repo display vcs = Except.ok h → vcs = [] →
      h = Handler.vanity host repo (resolveDisplay repo display) (ascii "git")) := by
  refine ⟨⟨?_, ?_⟩, ?_, ?_⟩
  · rintro ⟨e, he⟩
    rw [makeHandler_error_iff, resolveVCS_error_iff] at he
    rcases he with ⟨h1, h2, _⟩ | ⟨h1, h2, h3, _⟩
    · exact Or.inl ⟨h1, h2⟩
    · exact Or.inr ⟨h1, h2, h3⟩
  · rintro (⟨h1, h2⟩ | ⟨h1, h2, h3⟩)
    · exact ⟨_, (makeHandler_error_iff _ _ _ _ _).mpr
        ((resolveVCS_error_iff _ _ _).mpr (Or.inl ⟨h1, h2, rfl⟩))⟩
    · exact ⟨_, (makeHandler_error_iff _ _ _ _ _).mpr
        ((resolveVCS_error_iff _ _ _).mpr (Or.inr ⟨h1, h2, h3, rfl⟩))⟩
  · intro e he
    rw [makeHandler_error_iff, resolveVCS_error_iff] at he
    rcases he with ⟨h1, _, rfl⟩ | ⟨h1, _, _, rfl⟩
    · refine ⟨fun _ => ⟨?_, ?_⟩, fun h => absurd h h1⟩
      · exact ⟨ascii "configuration for " ++ repo ++ ascii ": ", ascii " " ++ vcs, by
          simp only [List.append_assoc]; rfl⟩
      · exact ⟨ascii "configuration for ", ascii ": unknown VCS " ++ vcs, by
          simp only [List.append_assoc]⟩
    · refine ⟨fun h => absurd h1 h, fun _ => ⟨?_, ?_⟩⟩
      · exact ⟨[], ascii " from " ++ repo, by simp only [List.append_assoc]; rfl⟩
      · exact ⟨ascii "cannot infer VCS from ", [], by simp only [List.append_nil]⟩
  · intro h hh hv
    rw [makeHandler_ok_iff] at hh
    obtain ⟨v, hv1, rfl⟩ := hh
    rw [resolveVCS_ok_iff] at hv1
    rcases hv1 with ⟨h1, _⟩ | ⟨_, h2, _⟩
    · exact absurd hv h1
    · rw [h2]

/-- C4: for every `repo` that starts with "https://github.com/", `makeHandler`
with empty display and empty vcs succeeds; the handler carries vcs "git" and
the display `repo repo/tree/master{/dir} repo/blob/master{/dir}/{file}#L{line}`. -/
theorem makeHandler_github_inference (host repo : GoString)
    (hrepo : hasPrefix repo (ascii "https://github.com/") = true) :
    makeHandler host repo [] [] = Except.ok (Handler.vanity host repo
      (repo ++ ascii " " ++ repo ++ ascii "/tree/master\x7b/dir\x7d " ++ repo ++
        ascii "/blob/master\x7b/dir\x7d/\x7bfile\x7d#L\x7bline\x7d")
      (ascii "git")) := by
  rw [makeHandler_ok_iff]
  refine ⟨ascii "git", ?_, ?_⟩
  · rw [resolveVCS_ok_iff]
    exact Or.inr ⟨rfl, rfl, Or.inl hrepo⟩
  · unfold resolveDisplay
    rw [if_neg (by simp), if_pos hrepo]

/-- C4 at `https://github.com/org/repo`. -/
theorem makeHandler_github_inference_witness :
    hasPrefix (ascii "https://github.com/org/repo") (ascii "https://github.com/") = true ∧
    makeHandler (ascii "example.org") (ascii "https://github.com/org/repo") [] [] =
      Except.ok (Handler.vanity (ascii "example.org") (ascii "https://github.com/org/repo")
        (ascii "https://github.com/org/repo https://github.com/org/repo/tree/master\x7b/dir\x7d https://github.com/org/repo/blob/master\x7b/dir\x7d/\x7bfile\x7d#L\x7bline\x7d")
        (ascii "git")) :=
  ⟨by decide, makeHandler_github_inference (ascii "example.org")
    (ascii "https://github.com/org/repo") (by decide)⟩

/-- The display string is empty after the first `switch` exactly when none of
its three cases applies. -/
theorem resolveDisplay_ne_nil_iff (repo display : GoString) :
    resolveDisplay repo display ≠ [] ↔
      (display ≠ [] ∨ hasPrefix repo (ascii "https://github.com/") = true ∨
        hasPrefix repo (ascii "https://bitbucket.org") = true) := by
  unfold resolveDisplay
  split_ifs with hd hg hb
  · exact ⟨fun _ => Or.inl hd, fun _ => hd⟩
  · refine ⟨fun _ => Or.inr (Or.inl hg), fun _ h => ?_⟩
    have hl := congrArg List.length h
    simp only [List.length_append] at hl
    have : (ascii " ").length = 1 := rfl
    simp only [List.length_nil] at hl
    omega
  · refine ⟨fun _ => Or.inr (Or.inr hb), fun _ h => ?_⟩
    have hl := congrArg List.length h
    simp only [List.length_append] at hl
    have : (ascii " ").length = 1 := rfl
    simp only [List.length_nil] at hl
    omega
  · constructor
    · intro h; exact absurd h hd
    · rintro (h | h | h)
      · exact absurd h hd
      · exact absurd h hg
      · exact absurd h hb

/-- C2 (as stated) fails: with an explicit vcs "git", no display and a repo on
an unrecognised host, `makeHandler` succeeds and the handler renders an empty
display string. -/
theorem makeHandler_display_may_be_empty :
    ¬ (∀ (host repo display vcs : GoString) (h : Handler),
        makeHandler host repo display vcs = Except.ok h →
        ∀ (w : ResponseWriter) (reqPath : GoString) (d : VanityData),
          (h.serveHTTP w reqPath).body = Body.vanityPage d →
          d.Display ≠ [] ∧ d.VCS ≠ []) := by
  intro hall
  have h := hall (ascii "example.org") (ascii "https://example.com/repo") [] (ascii "git")
    (Handler.vanity (ascii "example.org") (ascii "https://example.com/repo") []
      (ascii "git")) rfl ResponseWriter.new (ascii "/pkg")
    ⟨ascii "example.org", ascii "pkg", ascii "https://example.com/repo", [], ascii "git"⟩ rfl
  exact h.1 rfl

/-- C2 (amended): if `makeHandler` returns without error, the returned handler
renders, on every request, a vanity page whose vcs string is one of "bzr",
"git", "hg", "svn" (so non-empty), and whose display string is non-empty
exactly when a display was given or `repo` starts with "https://github.com/" or
with "https://bitbucket.org". -/
theorem makeHandler_ok_populates_vcs (host repo display vcs : GoString) (h : Handler)
    (hok : makeHandler host repo display vcs = Except.ok h)
    (w : ResponseWriter) (reqPath : GoString) :
    ∃ d : VanityData, (h.serveHTTP w reqPath).body = Body.vanityPage d ∧
      d.VCS ≠ [] ∧
      (d.VCS = ascii "bzr" ∨ d.VCS = ascii "git" ∨ d.VCS = ascii "hg" ∨
        d.VCS = ascii "svn") ∧
      (d.Display ≠ [] ↔
        (display ≠ [] ∨ hasPrefix repo (ascii "https://github.com/") = true ∨
          hasPrefix repo (ascii "https://bitbucket.org") = true)) := by
  rw [makeHandler_ok_iff] at hok
  obtain ⟨v, hv, rfl⟩ := hok
  refine ⟨_, rfl, ?_, ?_, resolveDisplay_ne_nil_iff repo display⟩
  · rw [resolveVCS_ok_iff] at hv
    rcases hv with ⟨h1, h2, _⟩ | ⟨_, h2, _⟩
    · show v ≠ []
      rw [h2]; exact h1
    · show v ≠ []
      rw [h2]; decide
  · rw [resolveVCS_ok_iff] at hv
    rcases hv with ⟨_, h2, h3⟩ | ⟨_, h2, _⟩
    · show v = _ ∨ v = _ ∨ v = _ ∨ v = _
      rw [h2]; exact h3
    · exact Or.inr (Or.inl h2)

/-- C2 (amended) at a Mercurial repository on an unrecognised host. -/
theorem makeHandler_ok_populates_vcs_witness :
    ∃ d : VanityData,
      ((Handler.vanity (ascii "example.org") (ascii "https://example.com/repo") []
        (ascii "hg")).serveHTTP ResponseWriter.new (ascii "/pkg/sub")).body =
          Body.vanityPage d ∧
      d.VCS ≠ [] ∧
      (d.VCS = ascii "bzr" ∨ d.VCS = ascii "git" ∨ d.VCS = ascii "hg" ∨
        d.VCS = ascii "svn") ∧
      (d.Display ≠ [] ↔
        (([] : GoString) ≠ [] ∨
          hasPrefix (ascii "https://example.com/repo") (ascii "https://github.com/") = true ∨
          hasPrefix (ascii "https://example.com/repo") (ascii "https://bitbucket.org") = true)) :=
  makeHandler_ok_populates_vcs (ascii "example.org") (ascii "https://example.com/repo") []
    (ascii "hg") _ rfl ResponseWriter.new (ascii "/pkg/sub")

/-- C7: when `makeHandler` succeeds, the handler renders on every request path
a vanity page whose go-import content is `host ++ " " ++ vcs ++ " " ++ repo`, with
`host` and `repo` as configured and `vcs` the resolved kind (the given one when
non-empty, "git" otherwise); the content does not depend on the request path. -/
theorem vanity_goImport_content (host repo display vcs : GoString) (h : Handler)
    (hok : makeHandler host repo display vcs = Except.ok h)
    (w : ResponseWriter) (reqPath : GoString) :
    ∃ d : VanityData, (h.serveHTTP w reqPath).body = Body.vanityPage d ∧
      resolveVCS repo vcs = Except.ok d.VCS ∧
      d.VCS = (if vcs ≠ [] then vcs else ascii "git") ∧
      goImportContent d = host ++ ascii " " ++ d.VCS ++ ascii " " ++ repo := by
  rw [makeHandler_ok_iff] at hok
  obtain ⟨v, hv, rfl⟩ := hok
  refine ⟨_, rfl, hv, ?_, rfl⟩
  rw [resolveVCS_ok_iff] at hv
  rcases hv with ⟨h1, h2, _⟩ | ⟨h1, h2, _⟩
  · show v = _
    rw [if_pos h1]; exact h2
  · show v = _
    rw [if_neg (not_not.mpr h1)]; exact h2

/-- C7 at the request `/pkg/sub/path` of a GitHub entry. -/
theorem vanity_goImport_content_witness :
    ∃ d : VanityData,
      ((Handler.vanity (ascii "example.org") (ascii "https://github.com/org/repo")
        (resolveDisplay (ascii "https://github.com/org/repo") []) (ascii "git")).serveHTTP
          ResponseWriter.new (ascii "/pkg/sub/path")).body = Body.vanityPage d ∧
      resolveVCS (ascii "https://github.com/org/repo") [] = Except.ok d.VCS ∧
      d.VCS = (if ([] : GoString) ≠ [] then [] else ascii "git") ∧
      goImportContent d = ascii "example.org" ++ ascii " " ++ d.VCS ++ ascii " " ++
        ascii "https://github.com/org/repo" :=
  vanity_goImport_content (ascii "example.org") (ascii "https://github.com/org/repo") [] []
    _ rfl ResponseWriter.new (ascii "/pkg/sub/path")

/-- C10 fails on the code: for the repository
`https://bitbucket.org.example.com/team/repo` with empty display and empty vcs,
the first `switch` synthesizes the Bitbucket display template (its prefix is
"https://bitbucket.org", without the final "/"), while the second `switch`
infers no VCS and `makeHandler` fails with "cannot infer VCS". -/
theorem bitbucket_display_without_vcs :
    hasPrefix (ascii "https://bitbucket.org.example.com/team/repo")
      (ascii "https://bitbucket.org") = true ∧
    resolveDisplay (ascii "https://bitbucket.org.example.com/team/repo") [] =
      ascii "https://bitbucket.org.example.com/team/repo https://bitbucket.org.example.com/team/repo/src/default\x7b/dir\x7d https://bitbucket.org.example.com/team/repo/src/default\x7b/dir\x7d/\x7bfile\x7d#\x7bfile\x7d-\x7bline\x7d" ∧
    makeHandler (ascii "example.org") (ascii "https://bitbucket.org.example.com/team/repo")
      [] [] =
      Except.error (ascii "cannot infer VCS from https://bitbucket.org.example.com/team/repo") :=
  ⟨rfl, rfl, rfl⟩

/-! ## Order on strings and sorting -/

theorem strLess_irrefl (a : GoString) : strLess a a = false := by
  induction a with
  | nil => rfl
  | cons x xs ih => simp [strLess, ih]

theorem strLess_trans (a b c : GoString) (hab : strLess a b = true)
    (hbc : strLess b c = true) : strLess a c = true := by
  induction a generalizing b c with
  | nil =>
    cases b with
    | nil => simp [strLess] at hab
    | cons y ys =>
      cases c with
      | nil => simp [strLess] at hbc
      | cons z zs => simp [strLess]
  | cons x xs ih =>
    cases b with
    | nil => simp [strLess] at hab
    | cons y ys =>
      cases c with
      | nil => simp [strLess] at hbc
      | cons z zs =>
        simp only [strLess] at hab hbc ⊢
        by_cases h1 : x.toNat < y.toNat
        · by_cases h2 : y.toNat < z.toNat
          · rw [if_pos (by omega)]
          · rw [if_neg h2] at hbc
            by_cases h3 : z.toNat < y.toNat
            · rw [if_pos h3] at hbc; cases hbc
            · rw [if_pos (by omega)]
        · rw [if_neg h1] at hab
          by_cases h1b : y.toNat < x.toNat
          · rw [if_pos h1b] at hab; cases hab
          · rw [if_neg h1b] at hab
            by_cases h2 : y.toNat < z.toNat
            · rw [if_pos (by omega)]
            · rw [if_neg h2] at hbc
              by_cases h3 : z.toNat < y.toNat
              · rw [if_pos h3] at hbc; cases hbc
              · rw [if_neg h3] at hbc
                rw [if_neg (by omega), if_neg (by omega)]
                exact ih ys zs hab hbc

theorem strLess_asymm (a b : GoString) (hab : strLess a b = true) : strLess b a = false := by
  cases hba : strLess b a with
  | false => rfl
  | true =>
    have := strLess_trans a b a hab hba
    rw [strLess_irrefl] at this
    cases this

theorem strLess_total (a b : GoString) (hab : strLess a b = false)
    (hba : strLess b a = false) : a = b := by
  induction a generalizing b with
  | nil =>
    cases b with
    | nil => rfl
    | cons y ys => simp [strLess] at hab
  | cons x xs ih =>
    cases b with
    | nil => simp [strLess] at hba
    | cons y ys =>
      simp only [strLess] at hab hba
      by_cases h1 : x.toNat < y.toNat
      · rw [if_pos h1] at hab; cases hab
      · rw [if_neg h1] at hab hba
        by_cases h2 : y.toNat < x.toNat
        · rw [if_pos h2] at hba; cases hba
        · rw [if_neg h2] at hab hba
          have hxy : x = y := UInt8.ext (by omega)
          rw [hxy, ih ys hab hba]

theorem pathLess_iff (a b : GoString) :
    pathLess a b = true ↔
      (a.length > b.length ∨ (a.length = b.length ∧ strLess a b = true)) := by
  unfold pathLess
  split_ifs with h
  · constructor
    · intro hs; exact Or.inr ⟨h, hs⟩
    · rintro (h1 | ⟨_, h2⟩)
      · omega
      · exact h2
  · constructor
    · intro hs; exact Or.inl (of_decide_eq_true hs)
    · rintro (h1 | ⟨h1, _⟩)
      · exact decide_eq_true h1
      · exact absurd h1 h

theorem pathLess_trans (a b c : GoString) (hab : pathLess a b = true)
    (hbc : pathLess b c = true) : pathLess a c = true := by
  rw [pathLess_iff] at hab hbc ⊢
  rcases hab with h1 | ⟨h1, h2⟩ <;> rcases hbc with h3 | ⟨h3, h4⟩
  · left; omega
  · left; omega
  · left; omega
  · right; exact ⟨by omega, strLess_trans a b c h2 h4⟩

theorem pathLess_asymm (a b : GoString) (hab : pathLess a b = true) :
    pathLess b a = false := by
  cases hba : pathLess b a with
  | false => rfl
  | true =>
    rw [pathLess_iff] at hab hba
    rcases hab with h1 | ⟨h1, h2⟩ <;> rcases hba with h3 | ⟨h3, h4⟩
    · omega
    · omega
    · omega
    · rw [strLess_asymm a b h2] at h4; cases h4

theorem pathLess_total (a b : GoString) (hab : pathLess a b = false)
    (hba : pathLess b a = false) : a = b := by
  have h1 : ¬ (pathLess a b = true) := by rw [hab]; simp
  have h2 : ¬ (pathLess b a = true) := by rw [hba]; simp
  rw [pathLess_iff] at h1 h2
  simp only [not_or, not_and] at h1 h2
  have hl : a.length = b.length := by omega
  apply strLess_total
  · exact Bool.eq_false_iff.mpr (h1.2 hl)
  · exact Bool.eq_false_iff.mpr (h2.2 hl.symm)

theorem insertSorted_perm {α : Type} (less : α → α → Bool) (x : α) (l : List α) :
    (insertSorted less x l).Perm (x :: l) := by
  induction l with
  | nil => exact List.Perm.refl _
  | cons y ys ih =>
    unfold insertSorted
    split_ifs
    · exact List.Perm.refl _
    · exact (List.Perm.cons y ih).trans (List.Perm.swap x y ys)

theorem sortSlice_perm {α : Type} (less : α → α → Bool) (l : List α) :
    (sortSlice less l).Perm l := by
  induction l with
  | nil => exact List.Perm.refl _
  | cons x xs ih =>
    unfold sortSlice
    exact (insertSorted_perm less x _).trans (List.Perm.cons x ih)

theorem insertSorted_sorted {α : Type} (less : α → α → Bool)
    (hasymm : ∀ a b, less a b = true → less b a = false)
    (htrans : ∀ a b c, less a b = true → less b c = true → less a c = true)
    (x : α) (l : List α) (hl : l.Pairwise (fun a b => less b a = false)) :
    (insertSorted less x l).Pairwise (fun a b => less b a = false) := by
  induction l with
  | nil => exact List.pairwise_singleton _ _
  | cons y ys ih =>
    unfold insertSorted
    rw [List.pairwise_cons] at hl
    split_ifs with hxy
    · rw [List.pairwise_cons]
      refine ⟨?_, List.pairwise_cons.mpr hl⟩
      intro z hz
      rcases List.mem_cons.mp hz with hz | hz
      · rw [hz]; exact hasymm x y hxy
      · cases hzx : less z x with
        | false => rfl
        | true =>
          have := htrans z x y hzx hxy
          rw [hl.1 z hz] at this
          cases this
    · rw [List.pairwise_cons]
      refine ⟨?_, ih hl.2⟩
      intro z hz
      rcases List.mem_cons.mp ((insertSorted_perm less x ys).subset hz) with hz | hz
      · rw [hz]; exact Bool.eq_false_iff.mpr hxy
      · exact hl.1 z hz

theorem sortSlice_sorted {α : Type} (less : α → α → Bool)
    (hasymm : ∀ a b, less a b = true → less b a = false)
    (htrans : ∀ a b c, less a b = true → less b c = true → less a c = true)
    (l : List α) : (sortSlice less l).Pairwise (fun a b => less b a = false) := by
  induction l with
  | nil => exact List.Pairwise.nil
  | cons x xs ih =>
    unfold sortSlice
    exact insertSorted_sorted less hasymm htrans x _ ih

/-- A comparator whose incomparable elements are equal leaves one sorted
arrangement of a slice: any permutation that is sorted under it is that
arrangement. -/
theorem sorted_perm_unique {α : Type} (less : α → α → Bool)
    (htotal : ∀ a b, less a b = false → less b a = false → a = b)
    (l1 l2 : List α) (hp : l1.Perm l2)
    (h1 : l1.Pairwise (fun a b => less b a = false))
    (h2 : l2.Pairwise (fun a b => less b a = false)) : l1 = l2 := by
  haveI : IsAntisymm α (fun a b => less b a = false) :=
    ⟨fun a b hab hba => htotal a b hba hab⟩
  exact List.eq_of_perm_of_sorted hp h1 h2

theorem sorted_strict_of_nodup {α : Type} (less : α → α → Bool)
    (htotal : ∀ a b, less a b = false → less b a = false → a = b)
    (l : List α) (hs : l.Pairwise (fun a b => less b a = false)) (hn : l.Nodup) :
    l.Pairwise (fun a b => less a b = true) := by
  have hboth := hs.and hn
  refine hboth.imp ?_
  intro a b hab
  cases h : less a b with
  | true => rfl
  | false => exact absurd (htotal a b h hab.1) hab.2

/-! ## Route table order and index listing -/

/-- C8: for a configuration with distinct keys, the slice of paths `parse`
iterates over is a permutation of the configured keys; it is sorted by
descending length and, among equal lengths, ascending byte-wise order; every
permutation of the keys sorted under the comparator is that same slice; and so
every iteration order of the map yields the same slice. -/
theorem sortedPaths_order (cfg : Config) (hwf : cfg.WellFormed) :
    (sortedPaths cfg).Perm cfg.keys ∧
    (sortedPaths cfg).Pairwise (fun a b =>
      a.length > b.length ∨ (a.length = b.length ∧ strLess a b = true)) ∧
    (∀ l : List GoString, l.Perm cfg.keys →
      l.Pairwise (fun a b => pathLess b a = false) → l = sortedPaths cfg) ∧
    (∀ cfg2 : Config, cfg2.Paths.Perm cfg.Paths → sortedPaths cfg2 = sortedPaths cfg) := by
  have hperm : (sortedPaths cfg).Perm cfg.keys := sortSlice_perm pathLess cfg.keys
  have hsorted : (sortedPaths cfg).Pairwise (fun a b => pathLess b a = false) :=
    sortSlice_sorted pathLess pathLess_asymm pathLess_trans cfg.keys
  refine ⟨hperm, ?_, ?_, ?_⟩
  · have hnodup : (sortedPaths cfg).Nodup := hperm.nodup_iff.mpr hwf
    refine (sorted_strict_of_nodup pathLess pathLess_total _ hsorted hnodup).imp ?_
    intro a b hab
    exact (pathLess_iff a b).mp hab
  · intro l hl hs
    exact sorted_perm_unique pathLess pathLess_total l _ (hl.trans hperm.symm) hs hsorted
  · intro cfg2 h2
    have hk : cfg2.keys.Perm cfg.keys := h2.map Prod.fst
    exact sorted_perm_unique pathLess pathLess_total _ _
      (((sortSlice_perm pathLess cfg2.keys).trans hk).trans hperm.symm)
      (sortSlice_sorted pathLess pathLess_asymm pathLess_trans cfg2.keys) hsorted

/-- C8 at `overlapConfig`: the keys "/a", "/a/b/c", "/a/b" are iterated as
"/a/b/c", "/a/b", "/a". -/
theorem sortedPaths_order_witness :
    overlapConfig.WellFormed ∧
    sortedPaths overlapConfig = [ascii "/a/b/c", ascii "/a/b", ascii "/a"] ∧
    (sortedPaths overlapConfig).Perm overlapConfig.keys ∧
    (sortedPaths overlapConfig).Pairwise (fun a b =>
      a.length > b.length ∨ (a.length = b.length ∧ strLess a b = true)) :=
  ⟨by unfold Config.WellFormed; decide, by decide,
    (sortedPaths_order overlapConfig (by unfold Config.WellFormed; decide)).1,
    (sortedPaths_order overlapConfig (by unfold Config.WellFormed; decide)).2.1⟩

/-- C9: the handler list that `index` builds, and that its handler renders on
every request, is a permutation of the strings `host ++ path` with one trailing
"/" stripped, one per configured path, and is sorted in ascending byte-wise
order. -/
theorem index_handlers_sorted_perm (host : GoString) (paths : List GoString) :
    ∃ hs : List GoString,
      index host paths = Handler.index host hs ∧
      (∀ (w : ResponseWriter) (reqPath : GoString),
        ((index host paths).serveHTTP w reqPath).body = Body.indexPage ⟨host, hs⟩) ∧
      hs.Perm (paths.map (fun path => trimSuffix (host ++ path) slash)) ∧
      hs.Pairwise (fun a b => a = b ∨ strLess a b = true) := by
  refine ⟨indexHandlers host paths, rfl, fun _ _ => rfl, sortSlice_perm strLess _, ?_⟩
  refine (sortSlice_sorted strLess strLess_asymm strLess_trans _).imp ?_
  intro a b hba
  cases hab : strLess a b with
  | true => exact Or.inr rfl
  | false => exact Or.inl (strLess_total a b hab hba)

/-! ## The `Cache-Control` header -/

theorem getHeader_setHeader (w : ResponseWriter) (k v : GoString) :
    (w.setHeader k v).getHeader k = some v := by
  simp [ResponseWriter.setHeader, ResponseWriter.getHeader, List.lookup]

theorem getHeader_setHeader_of_ne (w : ResponseWriter) (k k2 v : GoString) (hk : k ≠ k2) :
    (w.setHeader k2 v).getHeader k = w.getHeader k := by
  have hbeq : (k == k2) = false := by simpa using hk
  simp only [ResponseWriter.setHeader, ResponseWriter.getHeader, List.lookup, hbeq]
  induction w.header with
  | nil => rfl
  | cons kv rest ih =>
    by_cases hkv : kv.1 = k2
    · have h1 : (kv.1 != k2) = false := by simp [hkv]
      have h2 : (k == kv.1) = false := by rw [hkv]; exact hbeq
      rw [List.filter_cons, h1]
      simp only [Bool.false_eq_true, if_false]
      rw [ih]
      obtain ⟨a, b⟩ := kv
      simp only [List.lookup]
      simp only at h2
      rw [h2]
    · have h1 : (kv.1 != k2) = true := by simp [hkv]
      rw [List.filter_cons, h1]
      simp only [if_true]
      obtain ⟨a, b⟩ := kv
      simp only [List.lookup]
      rw [ih]

theorem handler_keeps_cacheControl (h : Handler) (w : ResponseWriter) (reqPath : GoString) :
    (h.serveHTTP w reqPath).getHeader (ascii "Cache-Control") =
      w.getHeader (ascii "Cache-Control") := by
  have hne : ascii "Cache-Control" ≠ ascii "Content-Type" := by decide
  cases h with
  | vanity host repo display vcs =>
    exact getHeader_setHeader_of_ne w _ _ _ hne
  | index host handlers =>
    exact getHeader_setHeader_of_ne w _ _ _ hne

theorem server_cacheControl (s : Server) (w : ResponseWriter) (reqPath : GoString) :
    (s.serveHTTP w reqPath).getHeader (ascii "Cache-Control") = some s.cacheControl := by
  unfold Server.serveHTTP routerServeHTTP
  cases selectRoute s.routes reqPath with
  | none => exact getHeader_setHeader w _ _
  | some rt =>
    show (rt.handler.serveHTTP _ reqPath).getHeader _ = _
    rw [handler_keeps_cacheControl]
    exact getHeader_setHeader w _ _

theorem parse_ok_iff (cfg : Config) (srv : Server) :
    parse cfg = Except.ok srv ↔
      ∃ routes, bindPaths cfg (sortedPaths cfg) = Except.ok routes ∧
        srv = withCacheControl
          (if (cfg.Paths.lookup slash).isSome then routes
            else routes ++ [Route.mk false slash (index cfg.Host (sortedPaths cfg)) none])
          (resolveMaxAge cfg) := by
  unfold parse
  dsimp only
  cases hb : bindPaths cfg (sortedPaths cfg) with
  | error e =>
    constructor
    · intro h; cases h
    · rintro ⟨routes, h, _⟩; cases h
  | ok routes =>
    constructor
    · intro h
      injection h with h
      exact ⟨routes, rfl, h.symm⟩
    · rintro ⟨routes2, h, hs⟩
      injection h with h
      rw [hs, h]

theorem parse_ok_cacheControl (cfg : Config) (srv : Server)
    (hok : parse cfg = Except.ok srv) :
    srv.cacheControl = ascii "public, max-age=" ++ fmtInt (resolveMaxAge cfg) := by
  rw [parse_ok_iff] at hok
  obtain ⟨routes, _, rfl⟩ := hok
  rfl

/-- C6 (as stated) fails: with `max_age: -1` and no paths, `parse` succeeds and
the header value is "public, max-age=86400", not "public, max-age=-1". -/
theorem cacheControl_negative_max_age :
    ∃ srv : Server,
      parse ⟨ascii "example.org", some (-1), []⟩ = Except.ok srv ∧
      srv.cacheControl = ascii "public, max-age=86400" ∧
      srv.cacheControl ≠ ascii "public, max-age=" ++ fmtInt (-1) :=
  ⟨_, rfl, by decide, by decide⟩

/-- C6 (amended): when `parse` succeeds, every response of the returned handler
carries the `Cache-Control` value computed at start-up, and that value is
"public, max-age=86400" when `max_age` is unset or negative, and
"public, max-age=<N>" for a configured `max_age` of `N ≥ 0`. -/
theorem cacheControl_value (cfg : Config) (srv : Server)
    (hok : parse cfg = Except.ok srv) :
    (∀ (w : ResponseWriter) (reqPath : GoString),
      (srv.serveHTTP w reqPath).getHeader (ascii "Cache-Control") =
        some srv.cacheControl) ∧
    (cfg.MaxAge = none → srv.cacheControl = ascii "public, max-age=86400") ∧
    (∀ n : Int, cfg.MaxAge = some n → 0 ≤ n →
      srv.cacheControl = ascii "public, max-age=" ++ fmtInt n) ∧
    (∀ n : Int, cfg.MaxAge = some n → n < 0 →
      srv.cacheControl = ascii "public, max-age=86400") := by
  have hcc := parse_ok_cacheControl cfg srv hok
  refine ⟨server_cacheControl srv, ?_, ?_, ?_⟩
  · intro hnone
    rw [hcc]
    unfold resolveMaxAge
    rw [hnone]
    decide
  · intro n hn hpos
    rw [hcc]
    unfold resolveMaxAge
    rw [hn]
    simp only [ge_iff_le]
    rw [if_pos hpos]
  · intro n hn hneg
    rw [hcc]
    unfold resolveMaxAge
    rw [hn]
    simp only [ge_iff_le]
    rw [if_neg (by omega)]
    decide

/-- C6 (amended) at `plainConfig`, whose `max_age` is 3600. -/
theorem cacheControl_value_witness :
    ∃ srv : Server, parse plainConfig = Except.ok srv ∧
      plainConfig.MaxAge = some 3600 ∧
      srv.cacheControl = ascii "public, max-age=3600" ∧
      ∀ (w : ResponseWriter) (reqPath : GoString),
        (srv.serveHTTP w reqPath).getHeader (ascii "Cache-Control") =
          some srv.cacheControl :=
  ⟨_, rfl, rfl, (cacheControl_value plainConfig _ rfl).2.2.1 3600 rfl (by decide),
    (cacheControl_value plainConfig _ rfl).1⟩

/-! ## Route selection -/

theorem slash_length : slash.length = 1 := rfl

theorem trimSuffix_slash_cases (k : GoString) :
    k = trimSuffix k slash ++ slash ∨ (trimSuffix k slash = k ∧ ¬ slash <:+ k) := by
  unfold trimSuffix
  split_ifs with h
  · left
    obtain ⟨t, rfl⟩ := (hasSuffix_iff k slash).mp h
    rw [List.length_append, Nat.add_sub_cancel, List.take_left]
  · right
    exact ⟨rfl, fun hs => h ((hasSuffix_iff k slash).mpr hs)⟩

theorem keyMatches_iff (k r : GoString) :
    keyMatches k r = true ↔
      ((trimSuffix k slash ≠ [] ∧ r = trimSuffix k slash) ∨
        (trimSuffix k slash ++ slash) <+: r) := by
  unfold keyMatches
  simp only [Bool.or_eq_true, Bool.and_eq_true, decide_eq_true_eq, beq_iff_eq,
    hasPrefix_iff, gt_iff_lt, List.length_pos]

theorem routesFor_find (k : GoString) (h : Handler) (r : GoString) :
    (keyMatches k r = true →
      ∃ rt, (routesFor k h).find? (fun rt => rt.accepts r) = some rt ∧
        rt.handler = h ∧ rt.owner = some k) ∧
    (keyMatches k r = false →
      (routesFor k h).find? (fun rt => rt.accepts r) = none) := by
  unfold keyMatches routesFor
  dsimp only
  by_cases hlen : (trimSuffix k slash).length > 0
  · rw [if_pos hlen]
    by_cases heq : (r == trimSuffix k slash) = true
    · simp [List.find?, Route.accepts, heq, hlen]
    · by_cases hp : hasPrefix r (trimSuffix k slash ++ slash) = true
      · simp [List.find?, Route.accepts, heq, hp]
      · simp [List.find?, Route.accepts, heq, hp]
  · rw [if_neg hlen]
    by_cases hp : hasPrefix r (trimSuffix k slash ++ slash) = true
    · simp [List.find?, Route.accepts, hp]
    · simp [List.find?, Route.accepts, hp, hlen]

/-- The routes bound for a list of paths are searched path by path: the
selected route belongs to the first path of the list that matches. -/
theorem bindPaths_select (cfg : Config) (r : GoString) (paths : List GoString)
    (routes : List Route) (hb : bindPaths cfg paths = Except.ok routes) :
    (∀ k, paths.find? (fun k => keyMatches k r) = some k →
      ∃ rt, selectRoute routes r = some rt ∧ rt.owner = some k ∧
        makeHandler cfg.Host (cfg.entry k).Repo (cfg.entry k).Display (cfg.entry k).VCS =
          Except.ok rt.handler) ∧
    (paths.find? (fun k => keyMatches k r) = none → selectRoute routes r = none) := by
  induction paths generalizing routes with
  | nil =>
    simp only [bindPaths] at hb
    injection hb with hb
    subst hb
    exact ⟨fun k hk => by simp at hk, fun _ => rfl⟩
  | cons path rest ih =>
    simp only [bindPaths] at hb
    cases hm : makeHandler cfg.Host (cfg.entry path).Repo (cfg.entry path).Display
        (cfg.entry path).VCS with
    | error e => rw [hm] at hb; cases hb
    | ok h =>
      rw [hm] at hb
      dsimp only at hb
      cases hr : bindPaths cfg rest with
      | error e => rw [hr] at hb; cases hb
      | ok routes2 =>
        rw [hr] at hb
        dsimp only at hb
        injection hb with hb
        subst hb
        have ih2 := ih routes2 hr
        have hf := routesFor_find path h r
        unfold selectRoute at ih2 ⊢
        rw [List.find?_append]
        cases hk : keyMatches path r with
        | true =>
          obtain ⟨rt, hrt, hh, ho⟩ := hf.1 hk
          rw [hrt]
          constructor
          · intro k hfind
            rw [List.find?_cons, hk] at hfind
            injection hfind with hfind
            subst hfind
            exact ⟨rt, rfl, ho, by rw [hh]; exact hm⟩
          · intro hfind
            rw [List.find?_cons, hk] at hfind
            cases hfind
        | false =>
          rw [hf.2 hk]
          constructor
          · intro k hfind
            rw [List.find?_cons, hk] at hfind
            exact ih2.1 k hfind
          · intro hfind
            rw [List.find?_cons, hk] at hfind
            exact ih2.2 hfind

theorem keyMatches_prefix_or (k r : GoString) (hm : keyMatches k r = true) :
    k <+: r ∨ k = r ++ slash := by
  rw [keyMatches_iff] at hm
  rcases trimSuffix_slash_cases k with hk | ⟨hk, _⟩
  · rcases hm with ⟨_, hr⟩ | hp
    · right; rw [hr]; exact hk
    · left; rw [← hk] at hp; exact hp
  · rw [hk] at hm
    rcases hm with ⟨_, hr⟩ | hp
    · left; rw [hr]
    · left; exact (List.prefix_append k slash).trans hp

theorem keyMatches_same_length (k1 k2 r : GoString) (h1 : keyMatches k1 r = true)
    (h2 : keyMatches k2 r = true) (hl : k1.length = k2.length) : k1 = k2 := by
  rcases keyMatches_prefix_or k1 r h1 with p1 | e1 <;>
    rcases keyMatches_prefix_or k2 r h2 with p2 | e2
  · exact (List.prefix_of_prefix_length_le p1 p2 (le_of_eq hl)).eq_of_length hl
  · have := p1.length_le
    rw [e2, List.length_append, slash_length] at hl
    omega
  · have := p2.length_le
    rw [e1, List.length_append, slash_length] at hl
    omega
  · rw [e1, e2]

theorem keyMatches_of_request (q r : GoString) (hq : q ≠ [])
    (hr : r = q ∨ hasPrefix r (q ++ slash) = true) : keyMatches q r = true := by
  rw [keyMatches_iff]
  rw [hasPrefix_iff] at hr
  rcases trimSuffix_slash_cases q with hk | ⟨hk, _⟩
  · right
    rw [← hk]
    rcases hr with hr | hr
    · rw [hr]
    · exact (List.prefix_append q slash).trans hr
  · rw [hk]
    rcases hr with hr | hr
    · exact Or.inl ⟨hq, hr⟩
    · exact Or.inr hr

theorem keyMatches_root (k : GoString) (hm : keyMatches k slash = true) :
    k = [] ∨ k = slash ∨ k = slash ++ slash := by
  rcases keyMatches_prefix_or k slash hm with hp | he
  · have hlen := hp.length_le
    rw [slash_length] at hlen
    cases k with
    | nil => exact Or.inl rfl
    | cons x xs =>
      right; left
      apply hp.eq_of_length
      rw [slash_length]
      simp only [List.length_cons] at hlen ⊢
      omega
  · exact Or.inr (Or.inr he)

/-- In a slice sorted under `pathLess`, the first path that matches a request
is strictly longer than every other path that matches it. -/
theorem first_match_longest (r : GoString) (paths : List GoString)
    (hs : paths.Pairwise (fun a b => pathLess b a = false)) (k : GoString)
    (hfind : paths.find? (fun k => keyMatches k r) = some k) :
    keyMatches k r = true ∧ k ∈ paths ∧
      ∀ k2 ∈ paths, keyMatches k2 r = true → k2 ≠ k → k2.length < k.length := by
  rw [List.find?_eq_some] at hfind
  obtain ⟨hk, front, back, hpaths, hfront⟩ := hfind
  refine ⟨hk, by rw [hpaths]; simp, ?_⟩
  intro k2 hk2 hm2 hne
  rw [hpaths] at hk2 hs
  rcases List.mem_append.mp hk2 with hin | hin
  · have := hfront k2 hin
    rw [hm2] at this
    cases this
  · rcases List.mem_cons.mp hin with hin | hin
    · exact absurd hin hne
    · have hpw := (List.pairwise_append.mp hs).2.1
      have hlt := (List.pairwise_cons.mp hpw).1 k2 hin
      have hnot : ¬ (pathLess k2 k = true) := by rw [hlt]; simp
      rw [pathLess_iff] at hnot
      simp only [not_or] at hnot
      have hle : k2.length ≤ k.length := by omega
      rcases Nat.lt_or_eq_of_le hle with h | h
      · exact h
      · exact absurd (keyMatches_same_length k2 k r hm2 hk h) hne

theorem selectRoute_append_of_some (routes extra : List Route) (r : GoString) (rt : Route)
    (h : selectRoute routes r = some rt) : selectRoute (routes ++ extra) r = some rt := by
  unfold selectRoute at h ⊢
  rw [List.find?_append, h]
  rfl

theorem selectRoute_append_of_none (routes extra : List Route) (r : GoString)
    (h : selectRoute routes r = none) :
    selectRoute (routes ++ extra) r = selectRoute extra r := by
  unfold selectRoute at h ⊢
  rw [List.find?_append, h]
  rfl

theorem lookup_eq_none_of_not_mem (k : GoString) (l : List (GoString × Entry))
    (h : k ∉ l.map Prod.fst) : l.lookup k = none := by
  induction l with
  | nil => rfl
  | cons kv rest ih =>
    obtain ⟨a, b⟩ := kv
    simp only [List.map_cons, List.mem_cons, not_or] at h
    have hb : (k == a) = false := by simpa using h.1
    simp only [List.lookup, hb]
    exact ih h.2

/-- Selection among the routes of a successful `parse`, for a request that
some configured path matches. -/
theorem parse_select_longest (cfg : Config) (srv : Server)
    (hok : parse cfg = Except.ok srv) (r : GoString) (k : GoString)
    (hk : k ∈ cfg.keys) (hm : keyMatches k r = true) :
    ∃ rt kmax, selectRoute srv.routes r = some rt ∧ rt.owner = some kmax ∧
      kmax ∈ cfg.keys ∧ keyMatches kmax r = true ∧
      makeHandler cfg.Host (cfg.entry kmax).Repo (cfg.entry kmax).Display
        (cfg.entry kmax).VCS = Except.ok rt.handler ∧
      ∀ k2 ∈ cfg.keys, keyMatches k2 r = true → k2 ≠ kmax → k2.length < kmax.length := by
  rw [parse_ok_iff] at hok
  obtain ⟨routes, hb, rfl⟩ := hok
  have hperm : (sortedPaths cfg).Perm cfg.keys := sortSlice_perm pathLess cfg.keys
  have hsorted : (sortedPaths cfg).Pairwise (fun a b => pathLess b a = false) :=
    sortSlice_sorted pathLess pathLess_asymm pathLess_trans cfg.keys
  have hsel := bindPaths_select cfg r (sortedPaths cfg) routes hb
  cases hfind : (sortedPaths cfg).find? (fun k => keyMatches k r) with
  | none =>
    rw [List.find?_eq_none] at hfind
    exact absurd hm (hfind k (hperm.mem_iff.mpr hk))
  | some kmax =>
    obtain ⟨rt, hrt, howner, hh⟩ := hsel.1 kmax hfind
    obtain ⟨hmm, hmem, hlong⟩ := first_match_longest r _ hsorted kmax hfind
    refine ⟨rt, kmax, ?_, howner, hperm.mem_iff.mp hmem, hmm, hh, ?_⟩
    · show selectRoute (if _ then routes else routes ++ _) r = some rt
      split_ifs
      · exact hrt
      · exact selectRoute_append_of_some _ _ _ _ hrt
    · intro k2 hk2
      exact hlong k2 (hperm.mem_iff.mpr hk2)

/-- C1 (as stated) fails: `overlapConfig` contains p = "/a" and q = "/a/b" =
p + "/" + "b", the request "/a/b/c/x" starts with q + "/", and the route
selected for it is bound to the entry of "/a/b/c", not to q's. -/
theorem longer_prefix_wins_over_q :
    ∃ srv : Server, parse overlapConfig = Except.ok srv ∧
      ascii "/a" ∈ overlapConfig.keys ∧ ascii "/a/b" ∈ overlapConfig.keys ∧
      ascii "/a/b" = ascii "/a" ++ slash ++ ascii "b" ∧
      hasPrefix (ascii "/a/b/c/x") (ascii "/a/b" ++ slash) = true ∧
      (selectRoute srv.routes (ascii "/a/b/c/x")).map Route.owner =
        some (some (ascii "/a/b/c")) ∧
      (selectRoute srv.routes (ascii "/a/b/c/x")).map Route.handler =
        some (Handler.vanity (ascii "example.org") (ascii "https://github.com/org/abc")
          (resolveDisplay (ascii "https://github.com/org/abc") []) (ascii "git")) ∧
      makeHandler overlapConfig.Host (overlapConfig.entry (ascii "/a/b")).Repo
          (overlapConfig.entry (ascii "/a/b")).Display
          (overlapConfig.entry (ascii "/a/b")).VCS =
        Except.ok (Handler.vanity (ascii "example.org") (ascii "https://github.com/org/ab")
          (resolveDisplay (ascii "https://github.com/org/ab") []) (ascii "git")) :=
  ⟨_, rfl, by decide, by decide, by decide, by decide, by decide, by decide, rfl⟩

/-- C1 (amended): say that a configured path matches a request path when the
request equals the path trimmed of one trailing "/" (if that is non-empty) or
starts with the trimmed path followed by "/".  When `parse` succeeds, then for
every request path that some configured path matches, the first-match route is
bound to the entry of the longest configured path that matches it (every other
matching path is strictly shorter).  In particular, for configured p and
q = p + "/" + s and a request that equals q or starts with q + "/", a route is
selected, it is never bound to p's entry, and it is bound to q's entry whenever
no configured path longer than q matches the request. -/
theorem longest_prefix_match (cfg : Config) (srv : Server)
    (hok : parse cfg = Except.ok srv) (r : GoString) :
    (∀ k ∈ cfg.keys, keyMatches k r = true →
      ∃ rt kmax, selectRoute srv.routes r = some rt ∧ rt.owner = some kmax ∧
        kmax ∈ cfg.keys ∧ keyMatches kmax r = true ∧
        makeHandler cfg.Host (cfg.entry kmax).Repo (cfg.entry kmax).Display
          (cfg.entry kmax).VCS = Except.ok rt.handler ∧
        ∀ k2 ∈ cfg.keys, keyMatches k2 r = true → k2 ≠ kmax →
          k2.length < kmax.length) ∧
    (∀ p q s : GoString, p ∈ cfg.keys → q ∈ cfg.keys → q = p ++ slash ++ s →
      (r = q ∨ hasPrefix r (q ++ slash) = true) →
      ∃ rt, selectRoute srv.routes r = some rt ∧ rt.owner ≠ some p ∧
        ((∀ k2 ∈ cfg.keys, keyMatches k2 r = true → k2.length ≤ q.length) →
          rt.owner = some q ∧
          makeHandler cfg.Host (cfg.entry q).Repo (cfg.entry q).Display
            (cfg.entry q).VCS = Except.ok rt.handler)) := by
  refine ⟨fun k hk hm => parse_select_longest cfg srv hok r k hk hm, ?_⟩
  intro p q s hp hq hpq hr
  have hlen : p.length < q.length := by
    rw [hpq, List.length_append, List.length_append, slash_length]
    omega
  have hqne : q ≠ [] := by
    intro h
    rw [h] at hlen
    simp at hlen
  have hmq : keyMatches q r = true := keyMatches_of_request q r hqne hr
  obtain ⟨rt, kmax, hsel, howner, hkmem, hmax, hh, hlong⟩ :=
    parse_select_longest cfg srv hok r q hq hmq
  refine ⟨rt, hsel, ?_, ?_⟩
  · intro hop
    have hkp : kmax = p := by
      rw [howner] at hop
      injection hop
    have hne : q ≠ kmax := by
      intro h
      rw [h, hkp] at hlen
      omega
    have := hlong q hq hmq hne
    rw [hkp] at this
    omega
  · intro hbound
    have hkq : kmax = q := by
      by_contra hne
      have h1 := hlong q hq hmq (fun h => hne h.symm)
      have h2 := hbound kmax hkmem hmax
      omega
    rw [hkq] at howner hh
    exact ⟨howner, hh⟩

/-- C1 (amended) at `overlapConfig` and the request "/a/b/x": a route is
selected and it is not bound to the entry of "/a". -/
theorem longest_prefix_match_witness :
    ∃ srv : Server, parse overlapConfig = Except.ok srv ∧
      ∃ rt, selectRoute srv.routes (ascii "/a/b/x") = some rt ∧
        rt.owner ≠ some (ascii "/a") ∧
        ((∀ k2 ∈ overlapConfig.keys, keyMatches k2 (ascii "/a/b/x") = true →
            k2.length ≤ (ascii "/a/b").length) →
          rt.owner = some (ascii "/a/b") ∧
          makeHandler overlapConfig.Host (overlapConfig.entry (ascii "/a/b")).Repo
            (overlapConfig.entry (ascii "/a/b")).Display
            (overlapConfig.entry (ascii "/a/b")).VCS = Except.ok rt.handler) :=
  ⟨_, rfl, (longest_prefix_match overlapConfig _ rfl (ascii "/a/b/x")).2
    (ascii "/a") (ascii "/a/b") (ascii "b") (by decide) (by decide) (by decide)
    (Or.inr (by decide))⟩

/-! ## The root path -/

/-- C5 (as stated) fails: `emptyKeyConfig` has no key "/", `parse` succeeds,
and the route selected for "/" is the prefix route "/" of the entry with the
empty key, whose handler is a vanity handler and not the index. -/
theorem root_served_by_empty_key_entry :
    ∃ srv : Server, parse emptyKeyConfig = Except.ok srv ∧
      slash ∉ emptyKeyConfig.keys ∧
      selectRoute srv.routes slash =
        some (Route.mk true slash
          (Handler.vanity (ascii "example.org") (ascii "https://github.com/org/root")
            (resolveDisplay (ascii "https://github.com/org/root") []) (ascii "git"))
          (some [])) :=
  ⟨_, rfl, by decide, by decide⟩

/-- C5 (amended): when `parse` succeeds and the map has none of the keys "",
"/" and "//" (the keys whose routes accept "/"), the route selected for the
request path "/" is the index route, and the response is the index page of the
host over the sorted paths. -/
theorem root_served_by_index (cfg : Config) (srv : Server)
    (hok : parse cfg = Except.ok srv)
    (hempty : [] ∉ cfg.keys) (hslash : slash ∉ cfg.keys)
    (hdouble : slash ++ slash ∉ cfg.keys) :
    selectRoute srv.routes slash =
      some (Route.mk false slash (index cfg.Host (sortedPaths cfg)) none) ∧
    ∀ w : ResponseWriter, (srv.serveHTTP w slash).body =
      Body.indexPage ⟨cfg.Host, indexHandlers cfg.Host (sortedPaths cfg)⟩ := by
  rw [parse_ok_iff] at hok
  obtain ⟨routes, hb, rfl⟩ := hok
  have hperm : (sortedPaths cfg).Perm cfg.keys := sortSlice_perm pathLess cfg.keys
  have hnone : (sortedPaths cfg).find? (fun k => keyMatches k slash) = none := by
    rw [List.find?_eq_none]
    intro k hk hm
    have hkeys := hperm.mem_iff.mp hk
    rcases keyMatches_root k hm with h | h | h
    · rw [h] at hkeys; exact hempty hkeys
    · rw [h] at hkeys; exact hslash hkeys
    · rw [h] at hkeys; exact hdouble hkeys
  have hsel := (bindPaths_select cfg slash (sortedPaths cfg) routes hb).2 hnone
  have hlookup : (cfg.Paths.lookup slash).isSome = false := by
    rw [lookup_eq_none_of_not_mem slash cfg.Paths hslash]
    rfl
  have hroutes : selectRoute (withCacheControl
      (if (cfg.Paths.lookup slash).isSome then routes
        else routes ++ [Route.mk false slash (index cfg.Host (sortedPaths cfg)) none])
      (resolveMaxAge cfg)).routes slash =
      some (Route.mk false slash (index cfg.Host (sortedPaths cfg)) none) := by
    show selectRoute (if _ then routes else routes ++ _) slash = _
    rw [hlookup]
    simp only [Bool.false_eq_true, if_false]
    rw [selectRoute_append_of_none _ _ _ hsel]
    simp [selectRoute, List.find?, Route.accepts]
  refine ⟨hroutes, ?_⟩
  intro w
  unfold Server.serveHTTP routerServeHTTP
  rw [hroutes]
  rfl

/-- C5 (amended) at `plainConfig`. -/
theorem root_served_by_index_witness :
    ∃ srv : Server, parse plainConfig = Except.ok srv ∧
      selectRoute srv.routes slash =
        some (Route.mk false slash (index plainConfig.Host (sortedPaths plainConfig)) none) ∧
      ∀ w : ResponseWriter, (srv.serveHTTP w slash).body =
        Body.indexPage ⟨ascii "example.org", [ascii "example.org/pkg", ascii "example.org/tools"]⟩ :=
  ⟨_, rfl, root_served_by_index plainConfig _ rfl (by decide) (by decide) (by decide)⟩

end Vanity
